import Mathlib

/-!
Verification of the user-management web service (`app.py`).

The service is a single-table CRUD application.  We embed it shallowly:

* the stored table `usuarios` becomes a `List Usuario` (the `DB` state);
* each HTTP handler becomes a pure function `input → DB → Resp body × DB`
  returning the HTTP outcome together with the state after the request
  (a handler that raises `HTTPException` before `commit` leaves the state
  unchanged, because `Session.close()` rolls the uncommitted session back);
* timestamps (`datetime.utcnow`) are an abstract `Nat` parameter `now`;
* the storage-generated primary key (SQLAlchemy autoincrement) is modelled
  as one greater than the maximum id present, which is fresh;
* the `DATABASE_URL` normalization block at import time becomes a pure
  function of the optional environment value, with Python string
  operations (`startswith`, `replace(old, new, 1)`, `in`) modelled on the
  character list underlying the string.
-/

namespace App

/-- The `usuarios` table row (SQLAlchemy model `Usuario`). -/
structure Usuario where
  id_usuario : Nat
  nombre : String
  correo : String
  password : String
  fecha_reg : Nat
deriving DecidableEq

/-- Pydantic `UsuarioIn`: creation payload. -/
structure UsuarioIn where
  nombre : String
  correo : String
  password : String
deriving DecidableEq

/-- Pydantic `UsuarioOut`: the public projection returned by the handlers.
It has exactly the four fields `id_usuario`, `nombre`, `correo`,
`fecha_reg`; there is no password field. -/
structure UsuarioOut where
  id_usuario : Nat
  nombre : String
  correo : String
  fecha_reg : Nat
deriving DecidableEq

/-- Pydantic `UsuarioUpdate`: partial-update payload, all fields optional. -/
structure UsuarioUpdate where
  nombre : Option String
  correo : Option String
  password : Option String
deriving DecidableEq

/-- HTTP outcome of a handler: a success status with a body, or an
`HTTPException` with a status code and detail message. -/
inductive Resp (α : Type) where
  | ok : Nat → α → Resp α
  | err : Nat → String → Resp α
deriving DecidableEq

/-- The stored state: the rows of the `usuarios` table. -/
abbrev DB := List Usuario

/-- Serialization through `response_model=UsuarioOut`. -/
def usuarioToOut (u : Usuario) : UsuarioOut :=
  ⟨u.id_usuario, u.nombre, u.correo, u.fecha_reg⟩

/-- The storage-generated primary key for the next insert: one greater
than the maximum id present (fresh by construction). -/
def nextId (db : DB) : Nat :=
  db.foldr (fun u m => max u.id_usuario m) 0 + 1

/-- Handler `crear_usuario` (`POST /api/usuarios`): reject with 409 when a
row with the same `correo` exists (`query.filter(...).first()`), otherwise
insert the new row and return it with status 201. -/
def crear_usuario (data : UsuarioIn) (now : Nat) (db : DB) :
    Resp UsuarioOut × DB :=
  if ((db.filter (fun u => u.correo == data.correo)).head?).isSome then
    (Resp.err 409 "El correo ya existe", db)
  else
    let u : Usuario := ⟨nextId db, data.nombre, data.correo, data.password, now⟩
    (Resp.ok 201 (usuarioToOut u), db ++ [u])

/-- Boolean order on rows used by `order_by(Usuario.id_usuario.asc())`. -/
def leId (a b : Usuario) : Bool :=
  a.id_usuario ≤ b.id_usuario

/-- Handler `listar_usuarios` (`GET /api/usuarios`): all rows ordered by
ascending id. -/
def listar_usuarios (db : DB) : Resp (List UsuarioOut) × DB :=
  (Resp.ok 200 ((db.mergeSort leId).map usuarioToOut), db)

/-- Handler `obtener_usuario` (`GET /api/usuarios/{id}`): primary-key
lookup (`db.get`), 404 when absent. -/
def obtener_usuario (id_usuario : Nat) (db : DB) : Resp UsuarioOut × DB :=
  match db.find? (fun u => u.id_usuario == id_usuario) with
  | none => (Resp.err 404 "No encontrado", db)
  | some u => (Resp.ok 200 (usuarioToOut u), db)

/-- The row after applying the present fields of an `UsuarioUpdate`
(absent fields keep the stored value; id and `fecha_reg` are not
touched by the handler). -/
def applyUpdate (data : UsuarioUpdate) (u : Usuario) : Usuario :=
  { u with
    nombre := data.nombre.getD u.nombre,
    correo := data.correo.getD u.correo,
    password := data.password.getD u.password }

/-- Handler `actualizar_usuario` (`PUT /api/usuarios/{id}`): 404 when the
row is absent; when a new `correo` is supplied and another row
(`id_usuario != id`) already has it, raise 409 — the session is closed
without commit, so the state is unchanged; otherwise persist the row with
the present fields applied and return it. -/
def actualizar_usuario (id_usuario : Nat) (data : UsuarioUpdate) (db : DB) :
    Resp UsuarioOut × DB :=
  match db.find? (fun u => u.id_usuario == id_usuario) with
  | none => (Resp.err 404 "No encontrado", db)
  | some u =>
    let conflict : Bool :=
      match data.correo with
      | some c =>
        ((db.filter (fun v => v.correo == c && v.id_usuario != id_usuario)).head?).isSome
      | none => false
    if conflict then
      (Resp.err 409 "El correo ya está usado por otro usuario", db)
    else
      let u' := applyUpdate data u
      (Resp.ok 200 (usuarioToOut u'),
       db.map (fun v => if v.id_usuario == id_usuario then u' else v))

/-- Handler `eliminar_usuario` (`DELETE /api/usuarios/{id}`): 404 when the
row is absent, otherwise delete it and return an empty 204 response. -/
def eliminar_usuario (id_usuario : Nat) (db : DB) : Resp Unit × DB :=
  match db.find? (fun u => u.id_usuario == id_usuario) with
  | none => (Resp.err 404 "No encontrado", db)
  | some _ => (Resp.ok 204 (), db.filter (fun v => !(v.id_usuario == id_usuario)))

/-- One CRUD request, for stating state invariants uniformly. -/
inductive Op where
  | create (data : UsuarioIn) (now : Nat)
  | list
  | get (id : Nat)
  | update (id : Nat) (data : UsuarioUpdate)
  | delete (id : Nat)

/-- The stored state after one request completes (success or error). -/
def applyOp (op : Op) (db : DB) : DB :=
  match op with
  | Op.create data now => (crear_usuario data now db).2
  | Op.list => (listar_usuarios db).2
  | Op.get i => (obtener_usuario i db).2
  | Op.update i data => (actualizar_usuario i data db).2
  | Op.delete i => (eliminar_usuario i db).2

/-- The storage-level primary-key constraint: ids are pairwise distinct.
Every reachable stored state satisfies it (`id_usuario` is the primary
key of the table). -/
abbrev WFids (db : DB) : Prop :=
  (db.map (fun v => v.id_usuario)).Nodup

/-- No two rows share an email (the `unique=True` column constraint). -/
abbrev EmailsUnique (db : DB) : Prop :=
  (db.map (fun v => v.correo)).Nodup

/-! ### Connection-string normalization (module-level `DATABASE_URL` code)

Python string operations modelled on the underlying character list:
`s.startswith(p)`, `s.replace(old, new, 1)` (first occurrence only) and
`sub in s` (substring containment). -/

/-- Python `s.replace(old, new, 1)`: replace the first occurrence of
`old`, scanning left to right; no occurrence leaves `s` unchanged. -/
def replaceOnceList (s old new : List Char) : List Char :=
  match s with
  | [] => []
  | c :: cs =>
    if old.isPrefixOf (c :: cs) then new ++ (c :: cs).drop old.length
    else c :: replaceOnceList cs old new

/-- Python `sub in s`: some suffix of `s` starts with `sub`. -/
def containsSub (s sub : List Char) : Bool :=
  match s with
  | [] => sub.isEmpty
  | _ :: cs => sub.isPrefixOf s || containsSub cs sub

/-- Python `s.startswith(p)`. -/
def strStartsWith (s p : String) : Bool :=
  p.data.isPrefixOf s.data

/-- Python `sub in s` on strings. -/
def strContainsSub (s sub : String) : Bool :=
  containsSub s.data sub.data

/-- Python `c in s` for a single character. -/
def strHasChar (s : String) (c : Char) : Bool :=
  s.data.contains c

/-- Python `s.replace(old, new, 1)` on strings. -/
def strReplaceOnce (s old new : String) : String :=
  ⟨replaceOnceList s.data old.data new.data⟩

/-- The fallback when the `DATABASE_URL` environment variable is unset. -/
def defaultDatabaseUrl : String := "sqlite:///./dev.db"

/-- The scheme-normalization step: a legacy `postgres://` or
`postgresql://` scheme is rewritten once to `postgresql+psycopg://`. -/
def normalizeScheme (url : String) : String :=
  if strStartsWith url "postgres://" then
    strReplaceOnce url "postgres://" "postgresql+psycopg://"
  else if strStartsWith url "postgresql://" then
    strReplaceOnce url "postgresql://" "postgresql+psycopg://"
  else url

/-- The SSL step: for a `postgresql+psycopg://` URL without an `sslmode=`
parameter, append `sslmode=require` with `?` or `&` as separator. -/
def addSslmode (url : String) : String :=
  if strStartsWith url "postgresql+psycopg://" && !(strContainsSub url "sslmode=") then
    let sep : String := if strHasChar url '?' then "&" else "?"
    url ++ sep ++ "sslmode=require"
  else url

/-- The final `DATABASE_URL` value as a function of the environment
variable (`os.getenv` result). -/
def DATABASE_URL (env : Option String) : String :=
  addSslmode (normalizeScheme (env.getD defaultDatabaseUrl))

/-! ### Helper lemmas -/

/-- `query.filter(p).first()` finds a row exactly when some row satisfies
the filter. -/
lemma first_isSome_iff {α : Type} (p : α → Bool) (l : List α) :
    ((l.filter p).head?).isSome = true ↔ ∃ x ∈ l, p x = true := by
  rw [List.head?_isSome]
  constructor
  · intro h
    rcases List.exists_mem_of_ne_nil _ h with ⟨x, hx⟩
    exact ⟨x, (List.mem_filter.mp hx).1, (List.mem_filter.mp hx).2⟩
  · rintro ⟨x, hx, hp⟩ hnil
    have : x ∈ l.filter p := List.mem_filter.mpr ⟨hx, hp⟩
    rw [hnil] at this
    cases this

/-- Every stored id is below `nextId`, so the generated id is fresh. -/
lemma id_lt_nextId {db : DB} {u : Usuario} (h : u ∈ db) :
    u.id_usuario < nextId db := by
  have : u.id_usuario ≤ db.foldr (fun v m => max v.id_usuario m) 0 := by
    induction db with
    | nil => cases h
    | cons w ws ih =>
      rcases List.mem_cons.mp h with rfl | h
      · exact Nat.le_max_left _ _
      · exact Nat.le_trans (ih h) (Nat.le_max_right _ _)
  exact Nat.lt_succ_of_le this

/-- Primary-key lookup fails exactly when no row has the id. -/
lemma find?_id_eq_none_iff (db : DB) (i : Nat) :
    db.find? (fun u => u.id_usuario == i) = none ↔ ∀ u ∈ db, u.id_usuario ≠ i := by
  rw [List.find?_eq_none]
  constructor
  · intro h u hu
    have := h u hu
    simpa using this
  · intro h u hu
    simpa using h u hu

/-- A successful primary-key lookup returns a stored row with that id. -/
lemma find?_id_eq_some {db : DB} {i : Nat} {u : Usuario}
    (h : db.find? (fun v => v.id_usuario == i) = some u) :
    u ∈ db ∧ u.id_usuario = i := by
  refine ⟨List.mem_of_find?_eq_some h, ?_⟩
  have := List.find?_some h
  simpa using this

/-- `crear_usuario` on a colliding email: 409 and the state unchanged. -/
lemma crear_usuario_conflict (data : UsuarioIn) (now : Nat) (db : DB)
    (h : ∃ u ∈ db, u.correo = data.correo) :
    crear_usuario data now db = (Resp.err 409 "El correo ya existe", db) := by
  simp [crear_usuario]
  exact h

/-- `crear_usuario` on a fresh email: append the new row, return it
with 201. -/
lemma crear_usuario_insert (data : UsuarioIn) (now : Nat) (db : DB)
    (hno : ∀ u ∈ db, u.correo ≠ data.correo) :
    crear_usuario data now db =
      (Resp.ok 201 (usuarioToOut ⟨nextId db, data.nombre, data.correo, data.password, now⟩),
       db ++ [⟨nextId db, data.nombre, data.correo, data.password, now⟩]) := by
  simp [crear_usuario]
  exact hno

/-- `obtener_usuario` when the row exists. -/
lemma obtener_found {db : DB} {i : Nat} {u : Usuario}
    (h : db.find? (fun v => v.id_usuario == i) = some u) :
    obtener_usuario i db = (Resp.ok 200 (usuarioToOut u), db) := by
  unfold obtener_usuario
  rw [h]

/-- `obtener_usuario` when the row is absent. -/
lemma obtener_not_found {db : DB} {i : Nat}
    (h : db.find? (fun v => v.id_usuario == i) = none) :
    obtener_usuario i db = (Resp.err 404 "No encontrado", db) := by
  unfold obtener_usuario
  rw [h]

/-- `eliminar_usuario` when the row exists. -/
lemma eliminar_found {db : DB} {i : Nat} {u : Usuario}
    (h : db.find? (fun v => v.id_usuario == i) = some u) :
    eliminar_usuario i db =
      (Resp.ok 204 (), db.filter (fun v => !(v.id_usuario == i))) := by
  unfold eliminar_usuario
  rw [h]

/-- `eliminar_usuario` when the row is absent. -/
lemma eliminar_not_found {db : DB} {i : Nat}
    (h : db.find? (fun v => v.id_usuario == i) = none) :
    eliminar_usuario i db = (Resp.err 404 "No encontrado", db) := by
  unfold eliminar_usuario
  rw [h]

/-- `actualizar_usuario` when the row is absent. -/
lemma actualizar_not_found {db : DB} {i : Nat} {data : UsuarioUpdate}
    (h : db.find? (fun v => v.id_usuario == i) = none) :
    actualizar_usuario i data db = (Resp.err 404 "No encontrado", db) := by
  unfold actualizar_usuario
  rw [h]

/-- `actualizar_usuario` when the supplied email belongs to another row:
409 and the state unchanged (no commit happens). -/
lemma actualizar_conflict {db : DB} {i : Nat} {data : UsuarioUpdate}
    {u : Usuario} {c : String}
    (hf : db.find? (fun v => v.id_usuario == i) = some u)
    (hc : data.correo = some c)
    (hex : ∃ v ∈ db, v.correo = c ∧ v.id_usuario ≠ i) :
    actualizar_usuario i data db =
      (Resp.err 409 "El correo ya está usado por otro usuario", db) := by
  unfold actualizar_usuario
  rw [hf]
  simp [hc]
  exact hex

/-- `actualizar_usuario` on success: the found row, with the present
fields applied, replaces its stored version. -/
lemma actualizar_ok {db : DB} {i : Nat} {data : UsuarioUpdate} {u : Usuario}
    (hf : db.find? (fun v => v.id_usuario == i) = some u)
    (hok : ∀ c, data.correo = some c → ∀ v ∈ db, ¬(v.correo = c ∧ v.id_usuario ≠ i)) :
    actualizar_usuario i data db =
      (Resp.ok 200 (usuarioToOut (applyUpdate data u)),
       db.map (fun v => if v.id_usuario == i then applyUpdate data u else v)) := by
  unfold actualizar_usuario
  rw [hf]
  cases hdc : data.correo with
  | none => simp
  | some c =>
    simp
    intro v hv hc
    by_contra hne
    exact hok c hdc v hv ⟨hc, hne⟩

/-- Replacing the row with id `i` by a row `u'` (still with id `i`) whose
email no other row carries preserves email uniqueness. -/
lemma emails_nodup_map_update (i : Nat) (u' : Usuario) :
    ∀ db : DB, WFids db → EmailsUnique db →
      (∀ v ∈ db, v.id_usuario ≠ i → v.correo ≠ u'.correo) →
      EmailsUnique (db.map (fun v => if v.id_usuario == i then u' else v)) := by
  intro db
  induction db with
  | nil =>
    intro _ _ _
    simp [EmailsUnique]
  | cons w ws ih =>
    intro hids hcors hcond
    have hids' : w.id_usuario ∉ ws.map (fun v => v.id_usuario) ∧ WFids ws := by
      simpa [WFids] using hids
    have hcors' : w.correo ∉ ws.map (fun v => v.correo) ∧ EmailsUnique ws := by
      simpa [EmailsUnique] using hcors
    simp only [EmailsUnique, List.map_cons, List.nodup_cons]
    by_cases hw : w.id_usuario = i
    · have hws_id : ∀ v ∈ ws, v.id_usuario ≠ i := by
        intro v hv heq
        exact hids'.1 (List.mem_map.mpr ⟨v, hv, by rw [heq, hw]⟩)
      have hmap : ws.map (fun v => if v.id_usuario == i then u' else v) = ws := by
        have h1 : ws.map (fun v => if v.id_usuario == i then u' else v) =
            ws.map (fun v => v) :=
          List.map_congr_left (fun v hv => by simp [hws_id v hv])
        simpa using h1
      have hhead : (if w.id_usuario == i then u' else w) = u' := by simp [hw]
      rw [hhead, hmap]
      refine ⟨?_, hcors'.2⟩
      intro hmem
      rcases List.mem_map.mp hmem with ⟨v, hv, hveq⟩
      exact hcond v (List.mem_cons_of_mem _ hv) (hws_id v hv) hveq
    · have hhead : (if w.id_usuario == i then u' else w) = w := by simp [hw]
      rw [hhead]
      refine ⟨?_, ih hids'.2 hcors'.2 (fun v hv => hcond v (List.mem_cons_of_mem _ hv))⟩
      intro hmem
      rcases List.mem_map.mp hmem with ⟨x, hx, hxeq⟩
      rcases List.mem_map.mp hx with ⟨v, hv, hveq⟩
      by_cases hvi : v.id_usuario = i
      · have hxu : x = u' := by rw [← hveq]; simp [hvi]
        rw [hxu] at hxeq
        exact hcond w (List.mem_cons_self _ _) hw hxeq.symm
      · have hxv : x = v := by rw [← hveq]; simp [hvi]
        rw [hxv] at hxeq
        exact hcors'.1 (List.mem_map.mpr ⟨v, hv, hxeq⟩)

/-- The freshly inserted row is the one found when looking up its id. -/
lemma find?_nextId_append (db : DB) (u : Usuario) (hu : u.id_usuario = nextId db) :
    (db ++ [u]).find? (fun v => v.id_usuario == nextId db) = some u := by
  rw [List.find?_append]
  have h1 : db.find? (fun v => v.id_usuario == nextId db) = none := by
    rw [find?_id_eq_none_iff]
    intro v hv
    exact Nat.ne_of_lt (id_lt_nextId hv)
  rw [h1]
  simp [List.find?, hu]

/-- A list is a Boolean prefix of itself followed by anything. -/
lemma isPrefixOf_append_self (l r : List Char) : l.isPrefixOf (l ++ r) = true := by
  induction l with
  | nil => simp [List.isPrefixOf]
  | cons a as ih => simp [List.isPrefixOf, ih]

/-- When the candidate is no longer than the left part, appending on the
right cannot change the Boolean prefix test. -/
lemma isPrefixOf_append_of_le :
    ∀ (l₁ l₂ r : List Char), l₁.length ≤ l₂.length →
      l₁.isPrefixOf (l₂ ++ r) = l₁.isPrefixOf l₂ := by
  intro l₁
  induction l₁ with
  | nil => intro l₂ r _; simp [List.isPrefixOf]
  | cons a as ih =>
    intro l₂ r h
    cases l₂ with
    | nil => simp at h
    | cons b bs =>
      have h' : as.length ≤ bs.length := by simpa using h
      simp only [List.cons_append, List.isPrefixOf, List.append_eq]
      rw [ih bs r h']

/-- Python `(old + rest).replace(old, new, 1) = new + rest`. -/
lemma replaceOnce_left (old rest new : List Char) (h : old ≠ []) :
    replaceOnceList (old ++ rest) old new = new ++ rest := by
  cases old with
  | nil => exact absurd rfl h
  | cons o os =>
    show replaceOnceList (o :: (os ++ rest)) (o :: os) new = new ++ rest
    simp only [replaceOnceList]
    have hp : (o :: os).isPrefixOf (o :: (os ++ rest)) = true :=
      isPrefixOf_append_self (o :: os) rest
    rw [if_pos hp]
    show new ++ ((o :: os) ++ rest).drop (o :: os).length = new ++ rest
    rw [List.drop_left]

/-- `startswith` holds on a string extending the tested head. -/
lemma strStartsWith_left (p rest : String) : strStartsWith (p ++ rest) p = true := by
  unfold strStartsWith
  rw [String.data_append]
  exact isPrefixOf_append_self _ _

/-- `"postgresql://..."` does not start with `"postgres://"` (the ninth
character differs). -/
lemma not_startsWith_legacy (rest : String) :
    strStartsWith ("postgresql://" ++ rest) "postgres://" = false := by
  unfold strStartsWith
  rw [String.data_append]
  rw [isPrefixOf_append_of_le _ _ _ (by decide)]
  decide

/-- `strReplaceOnce` on a string that starts with `old`. -/
lemma strReplaceOnce_left (old rest new : String) (h : old.data ≠ []) :
    strReplaceOnce (old ++ rest) old new = new ++ rest := by
  unfold strReplaceOnce
  apply String.ext
  show replaceOnceList (old ++ rest).data old.data new.data = (new ++ rest).data
  rw [String.data_append, String.data_append, replaceOnce_left _ _ _ h]

/-- Claim C1: the create handler returns HTTP 409 exactly when a stored
user already has the requested email; otherwise it inserts a row with the
given name, email and password and returns that row as `Output` with
HTTP 201. -/
theorem crear_usuario_spec (db : DB) (data : UsuarioIn) (now : Nat) :
    ((crear_usuario data now db).1 = Resp.err 409 "El correo ya existe"
        ↔ ∃ u ∈ db, u.correo = data.correo)
    ∧ ((∀ u ∈ db, u.correo ≠ data.correo) →
        crear_usuario data now db =
          (Resp.ok 201 (usuarioToOut ⟨nextId db, data.nombre, data.correo, data.password, now⟩),
           db ++ [⟨nextId db, data.nombre, data.correo, data.password, now⟩])) := by
  by_cases hex : ∃ u ∈ db, u.correo = data.correo
  · rw [crear_usuario_conflict data now db hex]
    refine ⟨⟨fun _ => hex, fun _ => rfl⟩, ?_⟩
    intro hno
    rcases hex with ⟨u, hu, he⟩
    exact absurd he (hno u hu)
  · push_neg at hex
    rw [crear_usuario_insert data now db hex]
    refine ⟨⟨fun habs => ?_, fun hx => ?_⟩, fun _ => rfl⟩
    · simp at habs
    · rcases hx with ⟨u, hu, he⟩
      exact absurd he (hex u hu)

/-- Claim C1 witness: creating a user in the empty state inserts the row
and returns 201. -/
theorem crear_usuario_spec_witness :
    crear_usuario ⟨"Ana", "ana@x.com", "p1"⟩ 7 [] =
      (Resp.ok 201 (usuarioToOut ⟨nextId [], "Ana", "ana@x.com", "p1", 7⟩),
       [] ++ [⟨nextId [], "Ana", "ana@x.com", "p1", 7⟩]) :=
  (crear_usuario_spec [] ⟨"Ana", "ana@x.com", "p1"⟩ 7).2 (by simp)

/-- Claim C2: starting from a state with pairwise-distinct emails (and
the storage-enforced primary-key distinctness of ids), the state after
any single request — successful or not — still has pairwise-distinct
emails. -/
theorem emails_unique_invariant (op : Op) (db : DB)
    (hw : WFids db) (he : EmailsUnique db) :
    EmailsUnique (applyOp op db) := by
  have he' : (db.map (fun v => v.correo)).Nodup := he
  cases op with
  | create data now =>
    simp only [applyOp]
    by_cases hex : ∃ u ∈ db, u.correo = data.correo
    · rw [crear_usuario_conflict data now db hex]
      exact he
    · push_neg at hex
      rw [crear_usuario_insert data now db hex]
      show ((db ++ [(⟨nextId db, data.nombre, data.correo, data.password, now⟩ : Usuario)]).map
        (fun v => v.correo)).Nodup
      rw [List.map_append]
      refine List.nodup_append.mpr ⟨he', by simp, ?_⟩
      intro a ha hb
      rcases List.mem_map.mp ha with ⟨u, hu, rfl⟩
      have hb' : u.correo = data.correo := by simpa using hb
      exact hex u hu hb'
  | list =>
    simpa [applyOp, listar_usuarios] using he
  | get i =>
    simp only [applyOp]
    cases hfind : db.find? (fun u => u.id_usuario == i) with
    | none => rw [obtener_not_found hfind]; exact he
    | some u => rw [obtener_found hfind]; exact he
  | update i data =>
    simp only [applyOp]
    cases hfind : db.find? (fun v => v.id_usuario == i) with
    | none => rw [actualizar_not_found hfind]; exact he
    | some u =>
      rcases find?_id_eq_some hfind with ⟨humem, huid⟩
      cases hdc : data.correo with
      | none =>
        rw [actualizar_ok hfind (fun c hc => by rw [hdc] at hc; cases hc)]
        refine emails_nodup_map_update i (applyUpdate data u) db hw he ?_
        intro v hv hvne heq
        have hcor : (applyUpdate data u).correo = u.correo := by
          simp [applyUpdate, hdc]
        rw [hcor] at heq
        have hvu : v = u := List.inj_on_of_nodup_map he' hv humem heq
        exact hvne (by rw [hvu, huid])
      | some c =>
        by_cases hex : ∃ v ∈ db, v.correo = c ∧ v.id_usuario ≠ i
        · rw [actualizar_conflict hfind hdc hex]
          exact he
        · push_neg at hex
          have hok : ∀ c', data.correo = some c' →
              ∀ v ∈ db, ¬(v.correo = c' ∧ v.id_usuario ≠ i) := by
            intro c' hc' v hv hcontra
            rw [hdc] at hc'
            injection hc' with hcc
            subst hcc
            exact hcontra.2 (hex v hv hcontra.1)
          rw [actualizar_ok hfind hok]
          refine emails_nodup_map_update i (applyUpdate data u) db hw he ?_
          intro v hv hvne heq
          have hcor : (applyUpdate data u).correo = c := by
            simp [applyUpdate, hdc]
          rw [hcor] at heq
          exact hvne (hex v hv heq)
  | delete i =>
    simp only [applyOp]
    cases hfind : db.find? (fun u => u.id_usuario == i) with
    | none => rw [eliminar_not_found hfind]; exact he
    | some u =>
      rw [eliminar_found hfind]
      exact List.Nodup.sublist (List.Sublist.map _ (List.filter_sublist db)) he'

/-- Claim C2 witness: the invariant applied to a concrete create on a
one-row state. -/
theorem emails_unique_invariant_witness :
    EmailsUnique (applyOp (Op.create ⟨"Bob", "bob@x.com", "p2"⟩ 8)
      [⟨1, "Ana", "ana@x.com", "p1", 7⟩]) :=
  emails_unique_invariant (Op.create ⟨"Bob", "bob@x.com", "p2"⟩ 8)
    [⟨1, "Ana", "ana@x.com", "p1", 7⟩] (by decide) (by decide)

/-- Claim C3: updating an existing user with an email already belonging
to a different user yields HTTP 409 and leaves the stored state — both
the target row and the conflicting row — exactly as it was. -/
theorem actualizar_usuario_conflict_spec (db : DB) (i : Nat)
    (data : UsuarioUpdate) (u : Usuario) (c : String)
    (hf : db.find? (fun v => v.id_usuario == i) = some u)
    (hc : data.correo = some c)
    (hex : ∃ v ∈ db, v.correo = c ∧ v.id_usuario ≠ i) :
    (actualizar_usuario i data db).1
        = Resp.err 409 "El correo ya está usado por otro usuario"
      ∧ (actualizar_usuario i data db).2 = db := by
  rw [actualizar_conflict hf hc hex]
  exact ⟨rfl, rfl⟩

/-- Claim C3 witness: a concrete email collision between two rows. -/
theorem actualizar_usuario_conflict_spec_witness :
    (actualizar_usuario 1 ⟨some "Ann", some "bob@x.com", some "q"⟩
        [⟨1, "Ana", "ana@x.com", "p1", 7⟩, ⟨2, "Bob", "bob@x.com", "p2", 8⟩]).1
        = Resp.err 409 "El correo ya está usado por otro usuario"
      ∧ (actualizar_usuario 1 ⟨some "Ann", some "bob@x.com", some "q"⟩
        [⟨1, "Ana", "ana@x.com", "p1", 7⟩, ⟨2, "Bob", "bob@x.com", "p2", 8⟩]).2
        = [⟨1, "Ana", "ana@x.com", "p1", 7⟩, ⟨2, "Bob", "bob@x.com", "p2", 8⟩] :=
  actualizar_usuario_conflict_spec
    [⟨1, "Ana", "ana@x.com", "p1", 7⟩, ⟨2, "Bob", "bob@x.com", "p2", 8⟩]
    1 ⟨some "Ann", some "bob@x.com", some "q"⟩ ⟨1, "Ana", "ana@x.com", "p1", 7⟩
    "bob@x.com" (by decide) (by decide)
    ⟨⟨2, "Bob", "bob@x.com", "p2", 8⟩, by decide, by decide⟩

/-- Claim C10: an update of an existing user with all three fields absent
succeeds with HTTP 200, returns the stored row as `Output`, and leaves
the state exactly unchanged (primary-key distinctness of ids assumed, as
storage enforces it). -/
theorem actualizar_usuario_empty_spec (db : DB) (i : Nat) (u : Usuario)
    (hw : WFids db)
    (hf : db.find? (fun v => v.id_usuario == i) = some u) :
    actualizar_usuario i ⟨none, none, none⟩ db
      = (Resp.ok 200 (usuarioToOut u), db) := by
  rcases find?_id_eq_some hf with ⟨humem, huid⟩
  have happ : applyUpdate ⟨none, none, none⟩ u = u := rfl
  rw [actualizar_ok hf (fun c hc => by cases hc)]
  rw [happ]
  have hmap : db.map (fun v => if v.id_usuario == i then u else v) = db := by
    have h1 : ∀ v ∈ db, (if v.id_usuario == i then u else v) = v := by
      intro v hv
      by_cases hvi : v.id_usuario = i
      · have hw' : (db.map (fun v => v.id_usuario)).Nodup := hw
        have hvu : v = u :=
          List.inj_on_of_nodup_map hw' hv humem (by rw [hvi, huid])
        simp [hvi, hvu]
      · simp [hvi]
    have h2 := List.map_congr_left (g := fun v => v) h1
    simpa using h2
  rw [hmap]

/-- Claim C10 witness: the empty update on a concrete one-row state. -/
theorem actualizar_usuario_empty_spec_witness :
    actualizar_usuario 1 ⟨none, none, none⟩ [⟨1, "Ana", "ana@x.com", "p1", 7⟩]
      = (Resp.ok 200 (usuarioToOut ⟨1, "Ana", "ana@x.com", "p1", 7⟩),
         [⟨1, "Ana", "ana@x.com", "p1", 7⟩]) :=
  actualizar_usuario_empty_spec [⟨1, "Ana", "ana@x.com", "p1", 7⟩] 1
    ⟨1, "Ana", "ana@x.com", "p1", 7⟩ (by decide) (by decide)

/-- Claim C4: every successful update finds a stored row and replaces it
by that row with exactly the present fields of the payload applied; the
id and `fecha_reg` are untouched, present fields take the supplied value,
absent fields keep the stored one. -/
theorem actualizar_usuario_success_spec (db : DB) (i : Nat)
    (data : UsuarioUpdate) (out : UsuarioOut) (st : DB)
    (h : actualizar_usuario i data db = (Resp.ok 200 out, st)) :
    ∃ u, db.find? (fun v => v.id_usuario == i) = some u
      ∧ out = usuarioToOut (applyUpdate data u)
      ∧ st = db.map (fun v => if v.id_usuario == i then applyUpdate data u else v)
      ∧ (applyUpdate data u).id_usuario = u.id_usuario
      ∧ (applyUpdate data u).fecha_reg = u.fecha_reg
      ∧ (applyUpdate data u).nombre = data.nombre.getD u.nombre
      ∧ (applyUpdate data u).correo = data.correo.getD u.correo
      ∧ (applyUpdate data u).password = data.password.getD u.password := by
  cases hf : db.find? (fun v => v.id_usuario == i) with
  | none =>
    rw [actualizar_not_found hf] at h
    simp at h
  | some u =>
    cases hdc : data.correo with
    | none =>
      rw [actualizar_ok hf (fun c hc => by rw [hdc] at hc; cases hc)] at h
      rw [Prod.mk.injEq, Resp.ok.injEq] at h
      obtain ⟨⟨-, hout⟩, hst⟩ := h
      exact ⟨u, rfl, hout.symm, hst.symm, rfl, rfl, rfl, by simp [applyUpdate, hdc], rfl⟩
    | some c =>
      by_cases hex : ∃ v ∈ db, v.correo = c ∧ v.id_usuario ≠ i
      · rw [actualizar_conflict hf hdc hex] at h
        simp at h
      · push_neg at hex
        have hok : ∀ c', data.correo = some c' →
            ∀ v ∈ db, ¬(v.correo = c' ∧ v.id_usuario ≠ i) := by
          intro c' hc' v hv hcontra
          rw [hdc] at hc'
          injection hc' with hcc
          subst hcc
          exact hcontra.2 (hex v hv hcontra.1)
        rw [actualizar_ok hf hok] at h
        rw [Prod.mk.injEq, Resp.ok.injEq] at h
        obtain ⟨⟨-, hout⟩, hst⟩ := h
        exact ⟨u, rfl, hout.symm, hst.symm, rfl, rfl, rfl, by simp [applyUpdate, hdc], rfl⟩

/-- Claim C4 witness: updating only the name on a concrete state. -/
theorem actualizar_usuario_success_spec_witness :
    ∃ u, [⟨1, "Ana", "ana@x.com", "p1", 7⟩].find?
          (fun v => v.id_usuario == 1) = some u
      ∧ (⟨1, "Ann", "ana@x.com", 7⟩ : UsuarioOut)
          = usuarioToOut (applyUpdate ⟨some "Ann", none, none⟩ u)
      ∧ [⟨1, "Ann", "ana@x.com", "p1", 7⟩]
          = [⟨1, "Ana", "ana@x.com", "p1", 7⟩].map
              (fun v => if v.id_usuario == 1
                then applyUpdate ⟨some "Ann", none, none⟩ u else v)
      ∧ (applyUpdate ⟨some "Ann", none, none⟩ u).id_usuario = u.id_usuario
      ∧ (applyUpdate ⟨some "Ann", none, none⟩ u).fecha_reg = u.fecha_reg
      ∧ (applyUpdate ⟨some "Ann", none, none⟩ u).nombre
          = (some "Ann").getD u.nombre
      ∧ (applyUpdate ⟨some "Ann", none, none⟩ u).correo
          = (none : Option String).getD u.correo
      ∧ (applyUpdate ⟨some "Ann", none, none⟩ u).password
          = (none : Option String).getD u.password :=
  actualizar_usuario_success_spec [⟨1, "Ana", "ana@x.com", "p1", 7⟩] 1
    ⟨some "Ann", none, none⟩ ⟨1, "Ann", "ana@x.com", 7⟩
    [⟨1, "Ann", "ana@x.com", "p1", 7⟩] (by decide)

/-- Claim C5: deletion succeeds with an empty 204 response exactly when a
row with the id exists, removing precisely the rows with that id;
otherwise (and hence on a repeated deletion of the same id) it returns
404 with the state unchanged. -/
theorem eliminar_usuario_spec (db : DB) (i : Nat) :
    ((∃ u ∈ db, u.id_usuario = i) ↔ (eliminar_usuario i db).1 = Resp.ok 204 ())
    ∧ ((¬ ∃ u ∈ db, u.id_usuario = i) →
        eliminar_usuario i db = (Resp.err 404 "No encontrado", db))
    ∧ ((∃ u ∈ db, u.id_usuario = i) →
        (∀ v, v ∈ (eliminar_usuario i db).2 ↔ (v ∈ db ∧ v.id_usuario ≠ i))
        ∧ (eliminar_usuario i (eliminar_usuario i db).2).1
            = Resp.err 404 "No encontrado") := by
  cases hf : db.find? (fun u => u.id_usuario == i) with
  | none =>
    have hno : ∀ u ∈ db, u.id_usuario ≠ i := (find?_id_eq_none_iff db i).mp hf
    rw [eliminar_not_found hf]
    refine ⟨⟨fun hx => ?_, fun habs => by simp at habs⟩, fun _ => rfl, fun hx => ?_⟩
    · rcases hx with ⟨u, hu, he⟩
      exact absurd he (hno u hu)
    · rcases hx with ⟨u, hu, he⟩
      exact absurd he (hno u hu)
  | some u =>
    rcases find?_id_eq_some hf with ⟨humem, huid⟩
    rw [eliminar_found hf]
    have hmem : ∀ v, v ∈ db.filter (fun v => !(v.id_usuario == i))
        ↔ (v ∈ db ∧ v.id_usuario ≠ i) := by
      intro v
      rw [List.mem_filter]
      simp
    refine ⟨⟨fun _ => rfl, fun _ => ⟨u, humem, huid⟩⟩,
      fun hno => absurd ⟨u, humem, huid⟩ hno, fun _ => ⟨hmem, ?_⟩⟩
    have h2 : (db.filter (fun v => !(v.id_usuario == i))).find?
        (fun u => u.id_usuario == i) = none := by
      rw [find?_id_eq_none_iff]
      intro v hv
      exact ((hmem v).mp hv).2
    show (eliminar_usuario i (db.filter (fun v => !(v.id_usuario == i)))).1
      = Resp.err 404 "No encontrado"
    rw [eliminar_not_found h2]

/-- Claim C5 witness: deleting the same id twice yields 404 the second
time. -/
theorem eliminar_usuario_spec_witness :
    (eliminar_usuario 1 ((eliminar_usuario 1 [⟨1, "Ana", "ana@x.com", "p1", 7⟩]).2)).1
      = Resp.err 404 "No encontrado" :=
  (((eliminar_usuario_spec [⟨1, "Ana", "ana@x.com", "p1", 7⟩] 1).2.2)
    ⟨⟨1, "Ana", "ana@x.com", "p1", 7⟩, by decide, by decide⟩).2

/-- Claim C6: the get handler returns the stored row as `Output` when a
row with the id exists and 404 otherwise; fetching a just-created user at
its new id returns the name, email and timestamp stored at creation. -/
theorem obtener_usuario_spec (db : DB) (i : Nat) :
    ((∃ u ∈ db, u.id_usuario = i) →
        ∃ u, u ∈ db ∧ u.id_usuario = i
          ∧ obtener_usuario i db = (Resp.ok 200 (usuarioToOut u), db))
    ∧ ((¬ ∃ u ∈ db, u.id_usuario = i) →
        obtener_usuario i db = (Resp.err 404 "No encontrado", db))
    ∧ (∀ (data : UsuarioIn) (now : Nat), (∀ u ∈ db, u.correo ≠ data.correo) →
        (obtener_usuario (nextId db) (crear_usuario data now db).2).1
          = Resp.ok 200 ⟨nextId db, data.nombre, data.correo, now⟩) := by
  refine ⟨?_, ?_, ?_⟩
  · intro hx
    cases hf : db.find? (fun v => v.id_usuario == i) with
    | none =>
      rcases hx with ⟨u, hu, he⟩
      exact absurd he (((find?_id_eq_none_iff db i).mp hf) u hu)
    | some u =>
      rcases find?_id_eq_some hf with ⟨humem, huid⟩
      exact ⟨u, humem, huid, obtener_found hf⟩
  · intro hno
    push_neg at hno
    exact obtener_not_found ((find?_id_eq_none_iff db i).mpr hno)
  · intro data now hno
    rw [crear_usuario_insert data now db hno]
    have hfind := find?_nextId_append db
      ⟨nextId db, data.nombre, data.correo, data.password, now⟩ rfl
    show (obtener_usuario (nextId db)
      (db ++ [⟨nextId db, data.nombre, data.correo, data.password, now⟩])).1
      = Resp.ok 200 ⟨nextId db, data.nombre, data.correo, now⟩
    rw [obtener_found hfind]
    rfl

/-- Claim C6 witness: create in the empty state, then fetch at the new
id. -/
theorem obtener_usuario_spec_witness :
    (obtener_usuario (nextId []) (crear_usuario ⟨"Ana", "ana@x.com", "p1"⟩ 7 []).2).1
      = Resp.ok 200 ⟨nextId [], "Ana", "ana@x.com", 7⟩ :=
  (obtener_usuario_spec [] 1).2.2 ⟨"Ana", "ana@x.com", "p1"⟩ 7 (by simp)

/-- Claim C7: the list handler leaves the state unchanged and returns one
`Output` per stored row — a permutation of the stored table's projection,
so no omissions and no duplicates beyond the stored ones — sorted by
ascending id; in particular its length equals the number of stored
rows. -/
theorem listar_usuarios_spec (db : DB) :
    ∃ outs, listar_usuarios db = (Resp.ok 200 outs, db)
      ∧ outs.Perm (db.map usuarioToOut)
      ∧ List.Pairwise (fun a b : UsuarioOut => a.id_usuario ≤ b.id_usuario) outs
      ∧ outs.length = db.length := by
  refine ⟨(db.mergeSort leId).map usuarioToOut, rfl, ?_, ?_, ?_⟩
  · exact (List.mergeSort_perm db leId).map usuarioToOut
  · have htrans : ∀ a b c : Usuario,
        leId a b = true → leId b c = true → leId a c = true := by
      intro a b c hab hbc
      simp only [leId, decide_eq_true_eq] at hab hbc ⊢
      exact Nat.le_trans hab hbc
    have htotal : ∀ a b : Usuario, (leId a b || leId b a) = true := by
      intro a b
      simp only [leId, Bool.or_eq_true, decide_eq_true_eq]
      exact Nat.le_total a.id_usuario b.id_usuario
    have hs := List.sorted_mergeSort htrans htotal db
    exact List.Pairwise.map usuarioToOut
      (fun a b h => by simpa only [leId, decide_eq_true_eq, usuarioToOut] using h) hs
  · rw [List.length_map]
    exact (List.mergeSort_perm db leId).length_eq

/-- Claim C8: the `Output` contract is exactly the projection of a stored
`Usuario` onto id, name, email and timestamp — it carries no password
field (it is invariant under any change of the stored password) — and
every body returned by create, get, update or list is such a projection
of a stored row. -/
theorem usuario_out_projection_spec :
    (∀ u : Usuario,
        usuarioToOut u = ⟨u.id_usuario, u.nombre, u.correo, u.fecha_reg⟩)
    ∧ (∀ (u : Usuario) (p : String),
        usuarioToOut { u with password := p } = usuarioToOut u)
    ∧ (∀ (db st : DB) (data : UsuarioIn) (now : Nat) (out : UsuarioOut),
        crear_usuario data now db = (Resp.ok 201 out, st) →
          ∃ u ∈ st, out = usuarioToOut u)
    ∧ (∀ (db st : DB) (i : Nat) (out : UsuarioOut),
        obtener_usuario i db = (Resp.ok 200 out, st) →
          ∃ u ∈ db, out = usuarioToOut u)
    ∧ (∀ (db st : DB) (i : Nat) (data : UsuarioUpdate) (out : UsuarioOut),
        actualizar_usuario i data db = (Resp.ok 200 out, st) →
          ∃ u ∈ st, out = usuarioToOut u)
    ∧ (∀ (db st : DB) (outs : List UsuarioOut),
        listar_usuarios db = (Resp.ok 200 outs, st) →
          ∀ o ∈ outs, ∃ u ∈ db, o = usuarioToOut u) := by
  refine ⟨fun u => rfl, fun u p => rfl, ?_, ?_, ?_, ?_⟩
  · intro db st data now out h
    by_cases hex : ∃ u ∈ db, u.correo = data.correo
    · rw [crear_usuario_conflict data now db hex] at h
      simp at h
    · push_neg at hex
      rw [crear_usuario_insert data now db hex] at h
      rw [Prod.mk.injEq, Resp.ok.injEq] at h
      obtain ⟨⟨-, hout⟩, hst⟩ := h
      refine ⟨⟨nextId db, data.nombre, data.correo, data.password, now⟩, ?_, hout.symm⟩
      rw [← hst]
      simp
  · intro db st i out h
    cases hf : db.find? (fun v => v.id_usuario == i) with
    | none =>
      rw [obtener_not_found hf] at h
      simp at h
    | some u =>
      rw [obtener_found hf] at h
      rw [Prod.mk.injEq, Resp.ok.injEq] at h
      exact ⟨u, List.mem_of_find?_eq_some hf, h.1.2.symm⟩
  · intro db st i data out h
    cases hf : db.find? (fun v => v.id_usuario == i) with
    | none =>
      rw [actualizar_not_found hf] at h
      simp at h
    | some u =>
      rcases find?_id_eq_some hf with ⟨humem, huid⟩
      cases hdc : data.correo with
      | none =>
        rw [actualizar_ok hf (fun c hc => by rw [hdc] at hc; cases hc)] at h
        rw [Prod.mk.injEq, Resp.ok.injEq] at h
        obtain ⟨⟨-, hout⟩, hst⟩ := h
        refine ⟨applyUpdate data u, ?_, hout.symm⟩
        rw [← hst]
        exact List.mem_map.mpr ⟨u, humem, by simp [huid]⟩
      | some c =>
        by_cases hex : ∃ v ∈ db, v.correo = c ∧ v.id_usuario ≠ i
        · rw [actualizar_conflict hf hdc hex] at h
          simp at h
        · push_neg at hex
          have hok : ∀ c', data.correo = some c' →
              ∀ v ∈ db, ¬(v.correo = c' ∧ v.id_usuario ≠ i) := by
            intro c' hc' v hv hcontra
            rw [hdc] at hc'
            injection hc' with hcc
            subst hcc
            exact hcontra.2 (hex v hv hcontra.1)
          rw [actualizar_ok hf hok] at h
          rw [Prod.mk.injEq, Resp.ok.injEq] at h
          obtain ⟨⟨-, hout⟩, hst⟩ := h
          refine ⟨applyUpdate data u, ?_, hout.symm⟩
          rw [← hst]
          exact List.mem_map.mpr ⟨u, humem, by simp [huid]⟩
  · intro db st outs h
    unfold listar_usuarios at h
    rw [Prod.mk.injEq, Resp.ok.injEq] at h
    obtain ⟨⟨-, houts⟩, hst⟩ := h
    intro o ho
    rw [← houts] at ho
    rcases List.mem_map.mp ho with ⟨u, hu, huo⟩
    exact ⟨u, (List.mergeSort_perm db leId).mem_iff.mp hu, huo.symm⟩

/-- Claim C8 witness: the output returned by a concrete get is the
projection of a stored row. -/
theorem usuario_out_projection_spec_witness :
    ∃ u ∈ [(⟨1, "Ana", "ana@x.com", "p1", 7⟩ : Usuario)],
      (⟨1, "Ana", "ana@x.com", 7⟩ : UsuarioOut) = usuarioToOut u :=
  usuario_out_projection_spec.2.2.2.1 [⟨1, "Ana", "ana@x.com", "p1", 7⟩]
    [⟨1, "Ana", "ana@x.com", "p1", 7⟩] 1 ⟨1, "Ana", "ana@x.com", 7⟩ (by decide)

/-- Claim C9: the connection string as a pure function of the
environment: unset yields the local SQLite file default; a legacy
`postgres://` or `postgresql://` scheme is replaced once by
`postgresql+psycopg://`; and on a driver-qualified networked string
`sslmode=require` is appended (with `?` or `&` as appropriate) exactly
when no `sslmode=` parameter is already present. -/
theorem database_url_spec :
    (DATABASE_URL none = "sqlite:///./dev.db")
    ∧ (∀ rest : String,
        normalizeScheme ("postgres://" ++ rest) = "postgresql+psycopg://" ++ rest)
    ∧ (∀ rest : String,
        normalizeScheme ("postgresql://" ++ rest) = "postgresql+psycopg://" ++ rest)
    ∧ (∀ url : String, strStartsWith url "postgresql+psycopg://" = true →
        (strContainsSub url "sslmode=" = false →
          addSslmode url
            = url ++ (if strHasChar url '?' then "&" else "?") ++ "sslmode=require")
        ∧ (strContainsSub url "sslmode=" = true → addSslmode url = url))
    ∧ (∀ s : Option String,
        DATABASE_URL s = addSslmode (normalizeScheme (s.getD defaultDatabaseUrl))) := by
  refine ⟨by decide, ?_, ?_, ?_, fun s => rfl⟩
  · intro rest
    unfold normalizeScheme
    rw [strStartsWith_left "postgres://" rest]
    simp only [if_true]
    exact strReplaceOnce_left "postgres://" rest "postgresql+psycopg://" (by decide)
  · intro rest
    unfold normalizeScheme
    rw [not_startsWith_legacy rest, strStartsWith_left "postgresql://" rest]
    simp only [Bool.false_eq_true, if_false, if_true]
    exact strReplaceOnce_left "postgresql://" rest "postgresql+psycopg://" (by decide)
  · intro url hstart
    constructor
    · intro hno
      unfold addSslmode
      rw [hstart, hno]
      simp
    · intro hyes
      unfold addSslmode
      rw [hstart, hyes]
      simp

/-- Claim C9 witness: a driver-qualified URL without `sslmode=` gets the
secure-transport parameter appended. -/
theorem database_url_spec_witness :
    addSslmode "postgresql+psycopg://host/db"
      = "postgresql+psycopg://host/db"
        ++ (if strHasChar "postgresql+psycopg://host/db" '?' then "&" else "?")
        ++ "sslmode=require" :=
  (database_url_spec.2.2.2.1 "postgresql+psycopg://host/db" (by decide)).1 (by decide)

end App
